import Mathlib

/-!
Verification of the log-retrieval Lambda functions (`get-log.py`, `approve.py`).

The Python sources are shallowly embedded: calendar dates become day
ordinals (days since 1970-01-01) with an explicit Gregorian conversion for
`strftime`-style formatting, the filesystem under `/tmp` becomes an
association list from path to size, and every effectful outcome that the
code branches on (SSH connection success, per-file download results, S3
upload success) becomes an explicit oracle argument.  Machine integers do
not overflow in the modelled ranges (Python integers are unbounded), so
plain `Nat` is used throughout.
-/

/-! ## Calendar dates

`datetime` values carrying only a date are modelled as the number of days
since 1970-01-01 (proleptic Gregorian).  `daysToCivil` is the standard
civil-from-days conversion; `fmtDash` and `fmtCompact` are `strftime` with
`%Y-%m-%d` and `%Y%m%d`. -/

def daysToCivil (z : Nat) : Nat × Nat × Nat :=
  let z := z + 719468
  let era := z / 146097
  let doe := z % 146097
  let yoe := (doe - doe / 1460 + doe / 36524 - doe / 146096) / 365
  let y := yoe + era * 400
  let doy := doe - (365 * yoe + yoe / 4 - yoe / 100)
  let mp := (5 * doy + 2) / 153
  let d := doy - (153 * mp + 2) / 5 + 1
  let m := if mp < 10 then mp + 3 else mp - 9
  (if m ≤ 2 then y + 1 else y, m, d)

def pad2 (n : Nat) : String :=
  if n < 10 then "0" ++ toString n else toString n

def pad4 (n : Nat) : String :=
  if n < 10 then "000" ++ toString n
  else if n < 100 then "00" ++ toString n
  else if n < 1000 then "0" ++ toString n
  else toString n

/-- Python `strftime('%Y-%m-%d')` on a day ordinal. -/
def fmtDash (z : Nat) : String :=
  let c := daysToCivil z
  pad4 c.1 ++ "-" ++ pad2 c.2.1 ++ "-" ++ pad2 c.2.2

/-- Python `strftime('%Y%m%d')` on a day ordinal. -/
def fmtCompact (z : Nat) : String :=
  let c := daysToCivil z
  pad4 c.1 ++ pad2 c.2.1 ++ pad2 c.2.2

/-! ## String helpers

Python `in` (substring test) and `str.replace` (replace every
non-overlapping occurrence, left to right) on `List Char` /
`String`. -/

def listContains (pat : List Char) : List Char → Bool
  | [] => pat.isEmpty
  | c :: rest => pat.isPrefixOf (c :: rest) || listContains pat rest

/-- Python `path_string.__contains__(pat)`. -/
def strContains (s pat : String) : Bool :=
  pat.data.isEmpty || listContains pat.data s.data

/-- Python `str.replace`: every non-overlapping occurrence of `pat`,
scanning left to right, becomes `rep`.  The scan consumes at least one
character per step, so running it with fuel `s.length` is exact; the fuel
keeps the recursion structural (kernel-reducible). -/
def replaceAllGo (pat rep : List Char) : Nat → List Char → List Char
  | 0, s => s
  | _, [] => []
  | fuel + 1, c :: rest =>
    if pat.isPrefixOf (c :: rest) then
      rep ++ replaceAllGo pat rep fuel (rest.drop (pat.length - 1))
    else
      c :: replaceAllGo pat rep fuel rest

def replaceAll (pat rep s : List Char) : List Char :=
  replaceAllGo pat rep s.length s

def strReplace (s pat rep : String) : String :=
  String.mk (replaceAll pat.data rep.data s.data)

/-! ## `expand_log_paths` (`get-log.py` lines 335-353)

For each configured path template the first matching placeholder spelling
(`'yyyy-mm-dd'` before `'yyyymmdd'`, mirroring the dict order) is replaced,
for every calendar day in `[from_date, to_date]`, via Python `str.replace`
(which substitutes every occurrence).  Templates with no placeholder pass
through unchanged. -/

inductive DateFmt where
  | dash
  | compact
deriving DecidableEq, Repr

def fmtDate : DateFmt → Nat → String
  | .dash, z => fmtDash z
  | .compact, z => fmtCompact z

def datePatterns : List (String × DateFmt) :=
  [("yyyy-mm-dd", .dash), ("yyyymmdd", .compact)]

def findDatePattern (path : String) : Option (String × DateFmt) :=
  datePatterns.find? (fun pf => strContains path pf.1)

/-- The `while current <= to_date` loop of `expand_log_paths`, run on
fuel `toD + 1 - current` (exact, since each iteration moves `current` one
day forward). -/
def expandDatesGo (path pat : String) (fmt : DateFmt) (toD : Nat) : Nat → Nat → List String
  | 0, _ => []
  | fuel + 1, current =>
    if current ≤ toD then
      strReplace path pat (fmtDate fmt current) :: expandDatesGo path pat fmt toD fuel (current + 1)
    else []

def expandDates (path pat : String) (fmt : DateFmt) (current toD : Nat) : List String :=
  expandDatesGo path pat fmt toD (toD + 1 - current) current

def expandOnePath (fromD toD : Nat) (path : String) : List String :=
  match findDatePattern path with
  | some (pat, fmt) => expandDates path pat fmt fromD toD
  | none => [path]

def expand_log_paths (log_paths : List String) (fromD toD : Nat) : List String :=
  log_paths.foldl (fun acc path => acc ++ expandOnePath fromD toD path) []

/-! ## `get_ssh_auth` (`get-log.py` lines 218-258)

A credentials record is the parsed SSM JSON: the `username` value and the
optional `password` / `client_cert` entries (`'password' in credentials`
is key presence, so an empty value still counts).  The paramiko key
parsers are an oracle `parseOk : KeyAlg → String → Bool` (does this PEM
text parse as that algorithm — `False` stands for `SSHException`), and
base64 decoding is an oracle `b64decode`.  Each trial receives the whole
decoded text again, which is what `seek(0)` achieves in the source. -/

structure Credentials where
  username : Option String
  password : Option String
  client_cert : Option String

inductive KeyAlg where
  | RSA
  | Ed25519
  | ECDSA
  | DSA
deriving DecidableEq, Repr

inductive SshAuth where
  | password (pw : String)
  | pkey (alg : KeyAlg) (pem : String)
deriving DecidableEq, Repr

def keyTrialOrder : List KeyAlg := [.RSA, .Ed25519, .ECDSA, .DSA]

def unsupportedKeyMsg : String := "サポートされていない鍵形式です"

def unsupportedAuthMsg : String := "サポートされていない認証形式です"

def get_ssh_auth (b64decode : String → String) (parseOk : KeyAlg → String → Bool)
    (cred : Credentials) : Except String (Option String × SshAuth) :=
  match cred.password with
  | some pw => .ok (cred.username, .password pw)
  | none =>
    match cred.client_cert with
    | some cert =>
      let pem := b64decode cert
      if parseOk .RSA pem then .ok (cred.username, .pkey .RSA pem)
      else if parseOk .Ed25519 pem then .ok (cred.username, .pkey .Ed25519 pem)
      else if parseOk .ECDSA pem then .ok (cred.username, .pkey .ECDSA pem)
      else if parseOk .DSA pem then .ok (cred.username, .pkey .DSA pem)
      else .error unsupportedKeyMsg
    | none => .error unsupportedAuthMsg

/-! ## `extract_log_period` (`approve.py` lines 268-351)

The body text is a `List Char` (Python `str` indices are codepoint
indices, as here).  The `【ログ取得期間】` section is the text after the
first marker occurrence up to the next `【` or end of text (the regex
`【ログ取得期間】(.*?)(?=【|$)` with `DOTALL`; `$` also matches just
before a single trailing newline).  Four date-token patterns are scanned
in priority order, each scan an exact `finditer`: non-overlapping
matches, left to right.  `\d` is modelled as the ASCII digits. -/

inductive TokKind where
  | template_double
  | template_single
  | template_none
  | actual_date
deriving DecidableEq, Repr

structure DateTok where
  text : List Char
  kind : TokKind
  pos : Nat
deriving DecidableEq, Repr

def periodMarker : List Char := "【ログ取得期間】".data

/-- First start index of `pat` inside a character list (`re.search` on a
fixed pattern). -/
def findSub (pat : List Char) : List Char → Option Nat
  | [] => if pat.isEmpty then some 0 else none
  | c :: rest =>
    if pat.isPrefixOf (c :: rest) then some 0
    else (findSub pat rest).map (· + 1)

/-- The non-greedy group `(.*?)(?=【|$)`: the shortest prefix whose end is
followed by `【`, is the end of text, or sits just before one final
newline. -/
def sectionTake : List Char → List Char
  | [] => []
  | c :: rest =>
    if c == '【' then []
    else if rest.isEmpty && c == '\n' then []
    else c :: sectionTake rest

def sectionOf (body : List Char) : Option (List Char) :=
  match findSub periodMarker body with
  | none => none
  | some i => some (sectionTake (body.drop (i + periodMarker.length)))

/-- Runs `finditer` for a fixed literal, optionally with the negative lookahead
`(?!["\'])` (`withLA = true`): start positions of the non-overlapping
matches.  On a match the scan resumes after the matched text; on a failure
it advances one character. -/
def noQuoteAfter : List Char → Bool
  | [] => true
  | c :: _ => !(c == '"' || c == '\'')

def litMatchesGo (lit : List Char) (withLA : Bool) : Nat → Nat → List Char → List Nat
  | 0, _, _ => []
  | _, _, [] => []
  | fuel + 1, i, c :: rest =>
    if lit.isPrefixOf (c :: rest) && (!withLA || noQuoteAfter (rest.drop (lit.length - 1))) then
      i :: litMatchesGo lit withLA fuel (i + lit.length) (rest.drop (lit.length - 1))
    else
      litMatchesGo lit withLA fuel (i + 1) rest

def litMatches (lit : List Char) (withLA : Bool) (i : Nat) (s : List Char) : List Nat :=
  litMatchesGo lit withLA s.length i s

def isDigitCh (c : Char) : Bool := '0' ≤ c && c ≤ '9'

/-- Does `\d{4}-\d{2}-\d{2}` match at the head of `s`? -/
def dateAt (s : List Char) : Bool :=
  match s with
  | y1 :: y2 :: y3 :: y4 :: h1 :: m1 :: m2 :: h2 :: d1 :: d2 :: _ =>
    isDigitCh y1 && isDigitCh y2 && isDigitCh y3 && isDigitCh y4 && h1 == '-' &&
    isDigitCh m1 && isDigitCh m2 && h2 == '-' && isDigitCh d1 && isDigitCh d2
  | _ => false

/-- Runs `finditer` for `\d{4}-\d{2}-\d{2}`: (start position, matched text). -/
def dateMatchesGo : Nat → Nat → List Char → List (Nat × List Char)
  | 0, _, _ => []
  | _, _, [] => []
  | fuel + 1, i, c :: rest =>
    if dateAt (c :: rest) then
      (i, (c :: rest).take 10) :: dateMatchesGo fuel (i + 10) (rest.drop 9)
    else
      dateMatchesGo fuel (i + 1) rest

def dateMatches (i : Nat) (s : List Char) : List (Nat × List Char) :=
  dateMatchesGo s.length i s

def tmplLit : List Char := "yyyy-mm-dd".data

def dquoteTmpl : List Char := '"' :: tmplLit ++ ['"']

def squoteTmpl : List Char := '\'' :: tmplLit ++ ['\'']

/-- The duplicate check: a match is dropped when its start position is
within 5 of an already-recorded match. -/
def dedupAdd (acc : List DateTok) (t : DateTok) : List DateTok :=
  if acc.any (fun u => Nat.dist t.pos u.pos < 5) then acc else acc ++ [t]

def tokLE (a b : DateTok) : Prop := a.pos ≤ b.pos

instance : DecidableRel tokLE := fun a b => inferInstanceAs (Decidable (a.pos ≤ b.pos))

instance : IsTotal DateTok tokLE := ⟨fun a b => Nat.le_total a.pos b.pos⟩

instance : IsTrans DateTok tokLE := ⟨fun _ _ _ => Nat.le_trans⟩

/-- All four patterns scanned in priority order, duplicates within 5
characters dropped, then sorted by position (Python `sort` is stable; the
surviving positions are pairwise at distance at least 5, hence distinct,
so any comparison sort computes the same list). -/
def foundDates (sec : List Char) : List DateTok :=
  let p1 := (litMatches dquoteTmpl false 0 sec).map (fun i => DateTok.mk dquoteTmpl .template_double i)
  let p2 := (litMatches squoteTmpl false 0 sec).map (fun i => DateTok.mk squoteTmpl .template_single i)
  let p3 := (litMatches tmplLit true 0 sec).map (fun i => DateTok.mk tmplLit .template_none i)
  let p4 := (dateMatches 0 sec).map (fun m => DateTok.mk m.2 .actual_date m.1)
  let collected := (p1 ++ p2 ++ p3 ++ p4).foldl dedupAdd []
  collected.insertionSort tokLE

def msgNoSection : String := "【ログ取得期間】セクションが見つかりません"

def msgZeroDates : String :=
  "ログ取得期間に日付が記載されていません。FROM: YYYY-MM-DD TO: YYYY-MM-DD の形式で記載してください。"

def msgOneDate : String :=
  "ログ取得期間に日付が1つしか記載されていません。FROM: YYYY-MM-DD TO: YYYY-MM-DD の形式で2つの日付を記載してください。"

def msgMixed : String :=
  "ログ取得期間の日付形式が混在しています。両方とも実際の日付（YYYY-MM-DD）または両方ともテンプレート（\"yyyy-mm-dd\"）で記載してください。"

def isTemplateKind : TokKind → Bool
  | .actual_date => false
  | _ => true

/-- Model of `extract_log_period`.  `today` is the day ordinal of
`datetime.now()`; a template FROM defaults to yesterday, a template TO to
today.  The `logger.warning` on more than two matches has no effect on
the returned value and is not modelled. -/
def extract_log_period (today : Nat) (body : String) : Except String (String × String) :=
  match sectionOf body.data with
  | none => .error msgNoSection
  | some sec =>
    match foundDates sec with
    | [] => .error msgZeroDates
    | [_] => .error msgOneDate
    | a :: b :: _ =>
      if isTemplateKind a.kind != isTemplateKind b.kind then .error msgMixed
      else
        let fromD := if isTemplateKind a.kind then fmtDash (today - 1) else String.mk a.text
        let toD := if isTemplateKind b.kind then fmtDash today else String.mk b.text
        .ok (fromD, toD)

/-! ## `download_logs_from_server` (`get-log.py` lines 355-408)

The SSH connection loop: up to 3 attempts, the sleep before a retry
starting at 5 seconds and doubling.  `connectOk` is the oracle for each
attempt's `ssh.connect`; `fileResults` is the oracle for the per-path
futures, in completion order (`none` is a path whose own 3-attempt
download loop was exhausted — such a failure is logged and skipped).
Returned alongside the result is the list of sleep delays performed. -/

structure DFile where
  local_path : String
  file_size : Nat
deriving DecidableEq, Repr

def totalSize (files : List DFile) : Nat :=
  (files.map (fun f => f.file_size)).sum

def sshFailMsg : String := "SSH接続に失敗しました (3回試行)"

def downloadGo (fileResults : List (Option DFile)) (connectOk : List Bool) :
    Nat → Nat → Nat → List Nat → Except String (List DFile × Nat) × List Nat
  | 0, _, _, sleeps => (.ok ([], 0), sleeps)
  | left + 1, attempt, delay, sleeps =>
    if connectOk.getD attempt false then
      let files := fileResults.filterMap id
      (.ok (files, totalSize files), sleeps)
    else if left == 0 then
      (.error sshFailMsg, sleeps)
    else
      downloadGo fileResults connectOk left (attempt + 1) (delay * 2) (sleeps ++ [delay])

def download_logs_from_server (connectOk : List Bool) (fileResults : List (Option DFile)) :
    Except String (List DFile × Nat) × List Nat :=
  downloadGo fileResults connectOk 3 0 5 []

/-! ## `process_servers_logs` (`get-log.py` lines 260-321)

The `/tmp` filesystem is an association list from path to size; writing a
path replaces any previous entry, `get_actual_tmp_usage` sums the sizes.
A whole `process_single_server` call is abstracted into its outcome: `none`
when it raised (credential failure or the exhausted connection retry —
nothing was written to `/tmp`), `some files` when it returned that list of
downloaded files (already sitting in `/tmp`).  Each
`upload_zip_to_storage_gateway` call consumes one entry of the `uploads`
oracle (`false` = the upload raised); an exhausted oracle means success.
Zip creation is modelled as always succeeding and writing an archive of
the batch's total size.  `parts_created` / `singles_created` record each
`create_part_zip` / `create_single_zip` call with its file batch and
password, so that archive contents and password sharing can be stated. -/

abbrev Disk := List (String × Nat)

def diskWrite (d : Disk) (p : String) (sz : Nat) : Disk :=
  (p, sz) :: d.filter (fun e => e.1 ≠ p)

def diskRemove (d : Disk) (p : String) : Disk :=
  d.filter (fun e => e.1 ≠ p)

def writeFiles (d : Disk) (files : List DFile) : Disk :=
  files.foldl (fun d f => diskWrite d f.local_path f.file_size) d

/-- Model of `cleanup_temp_files`: remove each downloaded file's local path. -/
def removePaths (d : Disk) (files : List DFile) : Disk :=
  files.foldl (fun d f => diskRemove d f.local_path) d

/-- Model of `get_actual_tmp_usage`: total size of everything under `/tmp`. -/
def tmpUsage (d : Disk) : Nat :=
  (d.map (fun e => e.2)).sum

def lambdaStorageLimit : Nat := 8 * 1024 * 1024 * 1024

def partZipPath (folder : String) (n : Nat) : String :=
  "/tmp/" ++ folder ++ "_part" ++ toString n ++ ".zip"

def singleZipPath (folder : String) : String :=
  "/tmp/" ++ folder ++ ".zip"

def storageGatewaySharePath : String := "\\\\storage-gateway\\share"

def storagePathFor (zipName : String) : String :=
  storageGatewaySharePath ++ "\\" ++ zipName ++ ".zip"

structure JobState where
  disk : Disk
  all_files : List DFile
  usage : Nat
  zip_refs : List String
  part_number : Nat
  parts_created : List (Nat × List DFile × String)
  singles_created : List (List DFile × String)
  uploads : List Bool
deriving DecidableEq, Repr

def takeUpload (st : JobState) : Bool × JobState :=
  match st.uploads with
  | [] => (true, st)
  | b :: rest => (b, { st with uploads := rest })

/-- One iteration of the `for hostname, server_info in servers.items()`
loop, wrapped in its own `try/except` (any exception inside it is logged
and the loop continues).  On `some files` the files are already on disk;
then the storage check runs, flushing the current batch as a numbered
part when the limit would be exceeded and the batch is non-empty.  A
failed flush upload raises, is caught by the per-server handler, and so
skips the `all_downloaded_files.extend` for this server. -/
def processServerStep (folder pwd : String) (st : JobState) (outcome : Option (List DFile)) :
    JobState :=
  match outcome with
  | none => st
  | some files =>
    let disk1 := writeFiles st.disk files
    let storage_used := totalSize files
    if st.usage + storage_used > lambdaStorageLimit && !st.all_files.isEmpty then
      let zp := partZipPath folder st.part_number
      let disk2 := diskWrite disk1 zp (totalSize st.all_files)
      let stMid : JobState := { st with
        disk := disk2
        parts_created := st.parts_created ++ [(st.part_number, st.all_files, pwd)] }
      let (ok, st2) := takeUpload stMid
      if ok then
        let disk3 := removePaths st2.disk st2.all_files
        let disk4 := diskRemove disk3 zp
        { st2 with
          disk := disk4
          all_files := files
          usage := tmpUsage disk4 + storage_used
          zip_refs := st2.zip_refs ++ [storagePathFor (folder ++ "_part" ++ toString st2.part_number)]
          part_number := st2.part_number + 1 }
      else
        st2
    else
      { st with
        disk := disk1
        all_files := st.all_files ++ files
        usage := st.usage + storage_used }

/-- The code after the loop: the remaining batch becomes a final numbered
part (when parts already exist) or the single unnumbered zip; its upload
raising propagates out of the function after `cleanup_temp_files` ran in
the `except` block — the zip itself is not removed there.  `.error st`
is that propagated exception together with the final state. -/
def finalizeJob (folder pwd : String) (st : JobState) :
    Except JobState (JobState × List String × String) :=
  if st.all_files.isEmpty then
    .ok (st, st.zip_refs, pwd)
  else if !st.zip_refs.isEmpty then
    let zp := partZipPath folder st.part_number
    let disk2 := diskWrite st.disk zp (totalSize st.all_files)
    let stMid : JobState := { st with
      disk := disk2
      parts_created := st.parts_created ++ [(st.part_number, st.all_files, pwd)] }
    let (ok, st2) := takeUpload stMid
    if ok then
      let refs := st2.zip_refs ++ [storagePathFor (folder ++ "_part" ++ toString st2.part_number)]
      let disk3 := diskRemove st2.disk zp
      let disk4 := removePaths disk3 st2.all_files
      .ok ({ st2 with disk := disk4, zip_refs := refs }, refs, pwd)
    else
      .error { st2 with disk := removePaths st2.disk st2.all_files }
  else
    let zp := singleZipPath folder
    let disk2 := diskWrite st.disk zp (totalSize st.all_files)
    let stMid : JobState := { st with
      disk := disk2
      singles_created := st.singles_created ++ [(st.all_files, pwd)] }
    let (ok, st2) := takeUpload stMid
    if ok then
      let refs := st2.zip_refs ++ [storagePathFor folder]
      let disk3 := diskRemove st2.disk zp
      let disk4 := removePaths disk3 st2.all_files
      .ok ({ st2 with disk := disk4, zip_refs := refs }, refs, pwd)
    else
      .error { st2 with disk := removePaths st2.disk st2.all_files }

def initialState (disk0 : Disk) (uploads : List Bool) : JobState :=
  { disk := disk0, all_files := [], usage := 0, zip_refs := [], part_number := 1,
    parts_created := [], singles_created := [], uploads := uploads }

/-- Model of `process_servers_logs`, over the per-server outcome oracle and the
upload oracle.  `pwd` is the job password drawn once from `uuid4`. -/
def process_servers_logs (folder pwd : String) (outcomes : List (Option (List DFile)))
    (uploads : List Bool) (disk0 : Disk) :
    Except JobState (JobState × List String × String) :=
  finalizeJob folder pwd (outcomes.foldl (processServerStep folder pwd) (initialState disk0 uploads))

/-- The state after the first `k` loop iterations of a run in which every
upload succeeds, starting from an empty `/tmp`. -/
def runStateAt (folder pwd : String) (outcomes : List (Option (List DFile))) (k : Nat) :
    JobState :=
  (outcomes.take k).foldl (processServerStep folder pwd) (initialState [] [])

/-! ## Concrete inputs used by the claims -/

def afileC2 : DFile := ⟨"/tmp/aa_serverA.log", 6442450944⟩

def bfileC2 : DFile := ⟨"/tmp/bb_serverB.log", 4294967296⟩

def sixFilesC3 : List DFile :=
  [⟨"/tmp/f1", 2147483648⟩, ⟨"/tmp/f2", 2147483648⟩, ⟨"/tmp/f3", 2147483648⟩,
   ⟨"/tmp/f4", 2147483648⟩, ⟨"/tmp/f5", 2147483648⟩, ⟨"/tmp/f6", 2147483648⟩]

def maxFileSize (files : List DFile) : Nat :=
  (files.map (fun f => f.file_size)).foldl max 0

/-- Does this `process_servers_logs` outcome propagate an exception while
leaving path `p` on disk? -/
def errorLeavesPath (r : Except JobState (JobState × List String × String)) (p : String) : Bool :=
  match r with
  | .error st => st.disk.any (fun e => e.1 == p)
  | .ok _ => false

/-- Claim C1 (counterexample): one server succeeds with one 100-byte file
within budget, the single final zip is created, and its upload raises.
The exception propagates out of `process_servers_logs` with the zip
`/tmp/job.zip` still on disk: the `except` block only runs
`cleanup_temp_files` on the downloaded files, so an archive part's local
zip path is not removed on this exit path. -/
theorem C1_cleanup_counterexample :
    errorLeavesPath
      (process_servers_logs "job" "pw" [some [⟨"/tmp/u1_a.log", 100⟩]] [false] [])
      (singleZipPath "job") = true := by
  decide

set_option maxRecDepth 8000

/-- Claim C2: the two-server scenario — server A one 6 GiB file, server B
one 4 GiB file, 8 GiB budget, every upload succeeding.  Adding B's bytes
would exceed the budget, so A's batch is flushed as part 1; B's batch
becomes part 2 at the end.  Exactly two parts are created, A's files in
part 1, B's in part 2, both carrying the single job password, which is
also the password returned. -/
theorem C2_two_server_split :
    (process_servers_logs "job" "p" [some [afileC2], some [bfileC2]] [] []).toOption.map
        (fun r => (r.1.parts_created, r.2.1.length, r.2.2)) =
      some ([(1, [afileC2], "p"), (2, [bfileC2], "p")], 2, "p") := by
  rfl

/-- Claim C3 (counterexample): one server whose six files each measure
2 GiB.  The budget check runs once per server (not per file) and the
`all_downloaded_files` batch is empty, so nothing is flushed: the running
counter reaches 12 GiB, exceeding the 8 GiB ceiling by 4 GiB — more than
the largest single file (2 GiB) of the server that triggered the check. -/
theorem C3_budget_counterexample :
    lambdaStorageLimit + maxFileSize sixFilesC3 <
      (runStateAt "job" "pw" [some sixFilesC3] 1).usage := by
  decide

/-- Claim C4: exhausting all 3 SSH connection attempts makes
`download_logs_from_server` raise (the per-host fatal error), after
sleeping 5 then 10 seconds (the delay doubling between attempts); and the
orchestrator's per-server `except` swallows a failing server, so the run
over any server list containing a failure equals the run with that server
removed — one bad host never aborts the job. -/
theorem C4_retry_and_skip (conn : List Bool) (fr : List (Option DFile))
    (h0 : conn[0]?.getD false = false) (h1 : conn[1]?.getD false = false)
    (h2 : conn[2]?.getD false = false)
    (folder pwd : String) (l1 l2 : List (Option (List DFile))) (ups : List Bool) (d0 : Disk) :
    download_logs_from_server conn fr = (.error sshFailMsg, [5, 10]) ∧
      process_servers_logs folder pwd (l1 ++ none :: l2) ups d0 =
        process_servers_logs folder pwd (l1 ++ l2) ups d0 := by
  constructor
  · simp [download_logs_from_server, downloadGo, h0, h1, h2]
  · unfold process_servers_logs
    rw [List.foldl_append, List.foldl_append, List.foldl_cons]
    rfl

theorem C4_retry_and_skip_witness :
    download_logs_from_server [false, false, false] [] = (.error sshFailMsg, [5, 10]) ∧
      process_servers_logs "job" "pw" ([] ++ none :: [some [⟨"/tmp/x", 7⟩]]) [] [] =
        process_servers_logs "job" "pw" ([] ++ [some [⟨"/tmp/x", 7⟩]]) [] [] :=
  C4_retry_and_skip [false, false, false] [] rfl rfl rfl "job" "pw" []
    [some [⟨"/tmp/x", 7⟩]] [] []

/-- Claim C9: with no password entry, the decoded key material is tried
against RSA, then Ed25519, then ECDSA, then DSA — each attempt reading
the whole decoded text again — and the first parser that succeeds wins;
all four failing is the unsupported-key-format error, and a record with
neither password nor key material is the unsupported-auth error. -/
theorem C9_key_trial_order (dec : String → String) (pok : KeyAlg → String → Bool)
    (cred : Credentials) (hpw : cred.password = none) :
    get_ssh_auth dec pok cred =
      match cred.client_cert with
      | some cert =>
        match keyTrialOrder.find? (fun a => pok a (dec cert)) with
        | some a => .ok (cred.username, .pkey a (dec cert))
        | none => .error unsupportedKeyMsg
      | none => .error unsupportedAuthMsg := by
  unfold get_ssh_auth
  rw [hpw]
  cases hc : cred.client_cert with
  | none => rfl
  | some cert =>
    simp only [keyTrialOrder, List.find?]
    by_cases hr : pok .RSA (dec cert) <;> by_cases he : pok .Ed25519 (dec cert) <;>
      by_cases hec : pok .ECDSA (dec cert) <;> by_cases hd : pok .DSA (dec cert) <;>
      simp [hr, he, hec, hd]

theorem C9_key_trial_order_witness :
    get_ssh_auth id (fun a _ => a == KeyAlg.ECDSA) ⟨some "u", none, some "PEM"⟩ =
      Except.ok (some "u", SshAuth.pkey .ECDSA "PEM") := by
  have h := C9_key_trial_order id (fun a _ => a == KeyAlg.ECDSA) ⟨some "u", none, some "PEM"⟩ rfl
  simpa [keyTrialOrder] using h

/-- Claim C10: a credentials record carrying both a password entry and key
material authenticates by password — the `'password' in credentials`
branch returns first, so the key material is never decoded or parsed
(the result does not depend on the decoding or parsing oracles at all),
and no key-format error can arise. -/
theorem C10_password_priority (cred : Credentials) (pw : String)
    (h : cred.password = some pw) :
    ∀ dec pok, get_ssh_auth dec pok cred = .ok (cred.username, .password pw) := by
  intro dec pok
  unfold get_ssh_auth
  rw [h]

theorem C10_password_priority_witness :
    get_ssh_auth (fun s => s) (fun _ _ => true) ⟨some "u", some "secret", some "PEM"⟩ =
      Except.ok (some "u", SshAuth.password "secret") :=
  C10_password_priority ⟨some "u", some "secret", some "PEM"⟩ "secret" rfl
    (fun s => s) (fun _ _ => true)

/-! ## Claims C5 and C6: the period extractor -/

/-- Claim C5: the surviving (deduplicated) matches are sorted by position
ascending and the first two become `(from_date, to_date)`; concretely,
`FROM: 2024-01-01 TO: 2024-01-02` extracts that pair, and three literal
dates extract the first two in document order (the third is discarded,
the source only logging a warning). -/
theorem C5_position_order :
    (∀ sec : List Char, (foundDates sec).Sorted tokLE) ∧
      extract_log_period 19723 "【ログ取得期間】FROM: 2024-01-01 TO: 2024-01-02" =
        .ok ("2024-01-01", "2024-01-02") ∧
      extract_log_period 19723 "【ログ取得期間】2024-01-01 2024-01-02 2024-01-03" =
        .ok ("2024-01-01", "2024-01-02") := by
  refine ⟨fun sec => ?_, by rfl, by rfl⟩
  exact List.sorted_insertionSort tokLE _

/-- Claim C6 (counterexample): a period section holding a bare template
token followed by two literal dates contains two same-kind (literal)
tokens, yet extraction fails: the first two surviving tokens by position
are the template and the first literal, which is the mixed-format hard
failure. -/
theorem C6_error_counterexample :
    (((foundDates "yyyy-mm-dd 2024-01-01 2024-01-02".data).filter
          (fun t => t.kind == TokKind.actual_date)).length ≥ 2) ∧
      extract_log_period 19723 "【ログ取得期間】yyyy-mm-dd 2024-01-01 2024-01-02" =
        .error msgMixed := by
  exact ⟨by decide, by rfl⟩

/-- Claim C6 (amended): `extract_log_period` fails exactly when the
period marker section is absent, when it holds zero surviving date
tokens, or exactly one (the zero and one cases carrying distinct
messages), or when the *first two surviving tokens by position* mix a
literal date with a template placeholder; whenever the section exists and
its first two surviving tokens are of the same kind, a pair is returned.
(Two same-kind tokens appearing later in the section do not rescue a
mixed first pair — see the counterexample.) -/
theorem C6_error_conditions (today : Nat) (body : String) :
    (match sectionOf body.data with
      | none => extract_log_period today body = .error msgNoSection
      | some sec =>
        match foundDates sec with
        | [] => extract_log_period today body = .error msgZeroDates
        | [_] => extract_log_period today body = .error msgOneDate
        | a :: b :: _ =>
          if isTemplateKind a.kind != isTemplateKind b.kind then
            extract_log_period today body = .error msgMixed
          else
            ∃ pr, extract_log_period today body = .ok pr) ∧
      msgZeroDates ≠ msgOneDate := by
  refine ⟨?_, by decide⟩
  unfold extract_log_period
  cases hs : sectionOf body.data with
  | none => simp
  | some sec =>
    simp only
    cases hf : foundDates sec with
    | nil => simp
    | cons a tl =>
      cases tl with
      | nil => simp
      | cons b tl2 =>
        by_cases hk : isTemplateKind a.kind != isTemplateKind b.kind
        · simp [hk]
        · simp [hk]

/-! ## Claims C7 and C8: path expansion -/

/-- The date loop enumerates exactly the days `current, current+1, ..., toD`. -/
theorem expandDatesGo_eq_range (path pat : String) (fmt : DateFmt) (toD : Nat) :
    ∀ fuel current, toD + 1 - current = fuel →
      expandDatesGo path pat fmt toD fuel current =
        (List.range fuel).map (fun i => strReplace path pat (fmtDate fmt (current + i))) := by
  intro fuel
  induction fuel with
  | zero => intro current _; rfl
  | succ n ih =>
    intro current hc
    have hle : current ≤ toD := by omega
    have : toD + 1 - (current + 1) = n := by omega
    simp only [expandDatesGo, if_pos hle, ih (current + 1) this, List.range_succ_eq_map,
      List.map_cons, List.map_map]
    congr 1
    apply List.map_congr_left
    intro a _
    simp only [Function.comp_apply]
    have hadd : current + 1 + a = current + (a + 1) := by omega
    rw [hadd]

theorem expandDates_eq_range (path pat : String) (fmt : DateFmt) (fromD toD : Nat)
    (h : fromD ≤ toD) :
    expandDates path pat fmt fromD toD =
      (List.range (toD - fromD + 1)).map (fun i => strReplace path pat (fmtDate fmt (fromD + i))) := by
  unfold expandDates
  have h2 : toD + 1 - fromD = toD - fromD + 1 := by omega
  rw [h2, expandDatesGo_eq_range path pat fmt toD (toD - fromD + 1) fromD (by omega)]

theorem foldl_append_expand (g : String → List String) :
    ∀ (l : List String) (acc : List String),
      l.foldl (fun acc path => acc ++ g path) acc = acc ++ l.flatMap g := by
  intro l
  induction l with
  | nil => intro acc; simp
  | cons x xs ih => intro acc; simp [ih, List.flatMap_cons]

/-- Claim C7: with `from_date ≤ to_date`, the expansion is the
concatenation, in input-template order, of each template's run; a
template with a recognized placeholder yields exactly
`(to_date - from_date) + 1` paths, one per calendar day in ascending
order (day `from_date + i` at offset `i`), and a template with no
placeholder yields exactly itself once. -/
theorem C7_expansion (templates : List String) (fromD toD : Nat) (h : fromD ≤ toD) :
    expand_log_paths templates fromD toD = templates.flatMap (expandOnePath fromD toD) ∧
      (∀ t pat fmt, findDatePattern t = some (pat, fmt) →
        expandOnePath fromD toD t =
            (List.range (toD - fromD + 1)).map
              (fun i => strReplace t pat (fmtDate fmt (fromD + i))) ∧
          (expandOnePath fromD toD t).length = toD - fromD + 1) ∧
      (∀ t, findDatePattern t = none → expandOnePath fromD toD t = [t]) := by
  refine ⟨?_, ?_, ?_⟩
  · unfold expand_log_paths
    simpa using foldl_append_expand (expandOnePath fromD toD) templates []
  · intro t pat fmt hf
    have he : expandOnePath fromD toD t = expandDates t pat fmt fromD toD := by
      unfold expandOnePath
      rw [hf]
    rw [he, expandDates_eq_range t pat fmt fromD toD h]
    simp
  · intro t hf
    unfold expandOnePath
    rw [hf]

theorem C7_expansion_witness :
    19723 ≤ 19724 ∧
      (expand_log_paths ["/l/yyyy-mm-dd.log", "plain.log"] 19723 19724 =
          ["/l/yyyy-mm-dd.log", "plain.log"].flatMap (expandOnePath 19723 19724) ∧
        (∀ t pat fmt, findDatePattern t = some (pat, fmt) →
          expandOnePath 19723 19724 t =
              (List.range (19724 - 19723 + 1)).map
                (fun i => strReplace t pat (fmtDate fmt (19723 + i))) ∧
            (expandOnePath 19723 19724 t).length = 19724 - 19723 + 1) ∧
        (∀ t, findDatePattern t = none → expandOnePath 19723 19724 t = [t])) :=
  ⟨by decide, C7_expansion ["/l/yyyy-mm-dd.log", "plain.log"] 19723 19724 (by decide)⟩

/-- Claim C8 (counterexample): in a template where the placeholder
spelling occurs twice, the code substitutes *both* occurrences
(Python `str.replace` replaces every occurrence), so the expanded path is
not the template with exactly one occurrence substituted — it differs
from both single-occurrence substitutions. -/
theorem C8_replace_counterexample :
    expand_log_paths ["a/yyyy-mm-dd/b/yyyy-mm-dd.log"] 19723 19723 =
        ["a/2024-01-01/b/2024-01-01.log"] ∧
      "a/2024-01-01/b/2024-01-01.log" ≠ "a/2024-01-01/b/yyyy-mm-dd.log" ∧
      "a/2024-01-01/b/2024-01-01.log" ≠ "a/yyyy-mm-dd/b/2024-01-01.log" := by
  exact ⟨by rfl, by decide, by decide⟩

/-- Membership in the date loop's output: every element substitutes some
day of `[current, toD]`. -/
theorem mem_expandDatesGo (path pat : String) (fmt : DateFmt) (toD : Nat) :
    ∀ fuel current q, q ∈ expandDatesGo path pat fmt toD fuel current →
      ∃ d, current ≤ d ∧ d ≤ toD ∧ q = strReplace path pat (fmtDate fmt d) := by
  intro fuel
  induction fuel with
  | zero => intro current q hq; simp [expandDatesGo] at hq
  | succ n ih =>
    intro current q hq
    by_cases hle : current ≤ toD
    · simp only [expandDatesGo, if_pos hle, List.mem_cons] at hq
      rcases hq with hq | hq
      · exact ⟨current, le_refl current, hle, hq⟩
      · rcases ih (current + 1) q hq with ⟨d, hd1, hd2, hd3⟩
        exact ⟨d, by omega, hd2, hd3⟩
    · simp [expandDatesGo, if_neg hle] at hq

/-- Claim C8 (amended): every expanded path produced from a
placeholder-bearing template equals the template with *every* occurrence
of the placeholder substituted by the formatted date of some day in
`[from_date, to_date]` (`strReplace` is Python `str.replace`, which
substitutes all occurrences) — not exactly one occurrence. -/
theorem C8_all_occurrences (path : String) (fromD toD : Nat) (pat : String) (fmt : DateFmt)
    (hf : findDatePattern path = some (pat, fmt)) :
    ∀ q ∈ expandOnePath fromD toD path,
      ∃ d, fromD ≤ d ∧ d ≤ toD ∧ q = strReplace path pat (fmtDate fmt d) := by
  intro q hq
  have he : expandOnePath fromD toD path = expandDates path pat fmt fromD toD := by
    unfold expandOnePath
    rw [hf]
  rw [he] at hq
  exact mem_expandDatesGo path pat fmt toD _ fromD q hq

theorem C8_all_occurrences_witness :
    findDatePattern "a/yyyy-mm-dd/b/yyyy-mm-dd.log" = some ("yyyy-mm-dd", DateFmt.dash) ∧
      (∀ q ∈ expandOnePath 19723 19723 "a/yyyy-mm-dd/b/yyyy-mm-dd.log",
        ∃ d, 19723 ≤ d ∧ d ≤ 19723 ∧
          q = strReplace "a/yyyy-mm-dd/b/yyyy-mm-dd.log" "yyyy-mm-dd" (fmtDate DateFmt.dash d)) :=
  ⟨by decide, C8_all_occurrences "a/yyyy-mm-dd/b/yyyy-mm-dd.log" 19723 19723 "yyyy-mm-dd"
    DateFmt.dash (by decide)⟩

/-! ## Claim C1: the cleanup invariant -/

def pathsOfFiles (files : List DFile) : List String :=
  files.map (fun f => f.local_path)

theorem mem_diskWrite {d : Disk} {p : String} {sz : Nat} {e : String × Nat}
    (h : e ∈ diskWrite d p sz) : e = (p, sz) ∨ e ∈ d := by
  unfold diskWrite at h
  rcases List.mem_cons.mp h with h | h
  · exact Or.inl h
  · exact Or.inr (List.mem_filter.mp h).1

theorem mem_diskRemove {d : Disk} {p : String} {e : String × Nat}
    (h : e ∈ diskRemove d p) : e ∈ d ∧ e.1 ≠ p := by
  unfold diskRemove at h
  have h2 := List.mem_filter.mp h
  exact ⟨h2.1, by simpa using h2.2⟩

theorem mem_writeFiles {e : String × Nat} :
    ∀ (files : List DFile) (d : Disk), e ∈ writeFiles d files →
      e ∈ d ∨ e.1 ∈ pathsOfFiles files := by
  intro files
  induction files with
  | nil => intro d h; exact Or.inl h
  | cons f fs ih =>
    intro d h
    rcases ih (diskWrite d f.local_path f.file_size) h with h1 | h1
    · rcases mem_diskWrite h1 with h2 | h2
      · right; simp [pathsOfFiles, h2]
      · exact Or.inl h2
    · right; simp [pathsOfFiles] at h1 ⊢; exact Or.inr h1

theorem mem_removePaths {e : String × Nat} :
    ∀ (files : List DFile) (d : Disk), e ∈ removePaths d files →
      e ∈ d ∧ e.1 ∉ pathsOfFiles files := by
  intro files
  induction files with
  | nil => intro d h; exact ⟨h, by simp [pathsOfFiles]⟩
  | cons f fs ih =>
    intro d h
    rcases ih (diskRemove d f.local_path) h with ⟨h1, h2⟩
    have h3 := mem_diskRemove h1
    refine ⟨h3.1, ?_⟩
    simp [pathsOfFiles] at h2 ⊢
    exact ⟨h3.2, h2⟩

/-- Every path on disk is the local path of a file of the current batch. -/
def diskCovered (st : JobState) : Prop :=
  ∀ e ∈ st.disk, e.1 ∈ pathsOfFiles st.all_files

theorem step_diskCovered (folder pwd : String) (st : JobState) (o : Option (List DFile))
    (hd : diskCovered st) (hu : st.uploads = []) :
    diskCovered (processServerStep folder pwd st o) ∧
      (processServerStep folder pwd st o).uploads = [] := by
  cases o with
  | none => exact ⟨hd, hu⟩
  | some files =>
    simp only [processServerStep, takeUpload, hu]
    split
    · -- flush: the old batch and the part zip are removed, the new files stay
      refine ⟨?_, rfl⟩
      intro e he
      have h4 := mem_diskRemove he
      have h3 := mem_removePaths st.all_files _ h4.1
      rcases mem_diskWrite h3.1 with h2 | h2
      · exact absurd (congrArg Prod.fst h2) h4.2
      · rcases mem_writeFiles files st.disk h2 with h1 | h1
        · exact absurd (hd e h1) h3.2
        · simpa using h1
    · -- no flush: the new files join the batch
      refine ⟨?_, rfl⟩
      intro e he
      rcases mem_writeFiles files st.disk he with h1 | h1
      · have := hd e h1
        simp [pathsOfFiles] at this ⊢
        exact Or.inl this
      · simp [pathsOfFiles] at h1 ⊢
        exact Or.inr h1

theorem fold_diskCovered (folder pwd : String) :
    ∀ (outcomes : List (Option (List DFile))) (st : JobState),
      diskCovered st → st.uploads = [] →
      diskCovered (outcomes.foldl (processServerStep folder pwd) st) ∧
        (outcomes.foldl (processServerStep folder pwd) st).uploads = [] := by
  intro outcomes
  induction outcomes with
  | nil => intro st h hu; exact ⟨h, hu⟩
  | cons o os ih =>
    intro st h hu
    have hstep := step_diskCovered folder pwd st o h hu
    exact ih _ hstep.1 hstep.2

/-- Does this run return normally with an empty `/tmp`? -/
def runOkDiskEmpty (r : Except JobState (JobState × List String × String)) : Prop :=
  match r with
  | .ok x => x.1.disk = []
  | .error _ => False

theorem removeAll_clean (d : Disk) (files : List DFile) (zp : String) (zsize : Nat)
    (hcov : ∀ e ∈ d, e.1 ∈ pathsOfFiles files) :
    removePaths (diskRemove (diskWrite d zp zsize) zp) files = [] := by
  rw [List.eq_nil_iff_forall_not_mem]
  intro e he
  have h3 := mem_removePaths files _ he
  have h4 := mem_diskRemove h3.1
  rcases mem_diskWrite h4.1 with h2 | h2
  · exact h4.2 (congrArg Prod.fst h2)
  · exact h3.2 (hcov e h2)

theorem finalize_clean (folder pwd : String) (st : JobState)
    (hd : diskCovered st) (hu : st.uploads = []) :
    runOkDiskEmpty (finalizeJob folder pwd st) := by
  unfold finalizeJob
  by_cases hemp : st.all_files.isEmpty = true
  · rw [if_pos hemp]
    show st.disk = []
    rw [List.eq_nil_iff_forall_not_mem]
    intro e he
    have h1 := hd e he
    rw [List.isEmpty_iff] at hemp
    simp [pathsOfFiles, hemp] at h1
  · rw [if_neg hemp]
    by_cases hz : (!st.zip_refs.isEmpty) = true
    · rw [if_pos hz]
      simp only [takeUpload, hu]
      exact removeAll_clean st.disk st.all_files _ _ hd
    · rw [if_neg hz]
      simp only [takeUpload, hu]
      exact removeAll_clean st.disk st.all_files _ _ hd

/-- Claim C1 (amended): on every run in which all the uploads succeed,
`process_servers_logs` returns normally and leaves `/tmp` empty — every
downloaded file's temp path and every part zip created during the job has
been removed.  (When an upload raises, the corresponding local zip — and,
for a mid-loop flush, the triggering server's downloaded files — can
survive, as the counterexample shows.) -/
theorem C1_cleanup_on_success (folder pwd : String) (outcomes : List (Option (List DFile))) :
    runOkDiskEmpty (process_servers_logs folder pwd outcomes [] []) := by
  unfold process_servers_logs
  have hinit : diskCovered (initialState [] []) := by
    intro e he
    simp [initialState] at he
  have h := fold_diskCovered folder pwd outcomes (initialState [] []) hinit rfl
  exact finalize_clean folder pwd _ h.1 h.2

/-! ## Claim C3: the budget invariant -/

def pairsOf (files : List DFile) : Disk :=
  files.map (fun f => (f.local_path, f.file_size))

theorem pathsOfFiles_append (a b : List DFile) :
    pathsOfFiles (a ++ b) = pathsOfFiles a ++ pathsOfFiles b := by
  simp [pathsOfFiles]

theorem pairsOf_append (a b : List DFile) :
    pairsOf (a ++ b) = pairsOf a ++ pairsOf b := by
  simp [pairsOf]

theorem mem_pairsOf_reverse {e : String × Nat} {files : List DFile}
    (h : e ∈ (pairsOf files).reverse) : e.1 ∈ pathsOfFiles files := by
  rw [List.mem_reverse] at h
  simp only [pairsOf, List.mem_map] at h
  rcases h with ⟨f, hf, he⟩
  subst he
  exact List.mem_map.mpr ⟨f, hf, rfl⟩

theorem writeFiles_fresh :
    ∀ (files : List DFile) (d : Disk),
      (∀ p ∈ pathsOfFiles files, ∀ e ∈ d, e.1 ≠ p) →
      (pathsOfFiles files).Nodup →
      writeFiles d files = (pairsOf files).reverse ++ d := by
  intro files
  induction files with
  | nil => intro d _ _; rfl
  | cons f fs ih =>
    intro d hfresh hnd
    have hpaths : pathsOfFiles (f :: fs) = f.local_path :: pathsOfFiles fs := rfl
    rw [hpaths] at hfresh hnd
    have hne : ∀ e ∈ d, e.1 ≠ f.local_path :=
      fun e he => hfresh f.local_path (List.mem_cons_self _ _) e he
    have hw : diskWrite d f.local_path f.file_size = (f.local_path, f.file_size) :: d := by
      unfold diskWrite
      congr 1
      exact List.filter_eq_self.mpr (fun e he => by simpa using hne e he)
    have hfresh2 : ∀ p ∈ pathsOfFiles fs, ∀ e ∈ (f.local_path, f.file_size) :: d, e.1 ≠ p := by
      intro p hp e he
      rcases List.mem_cons.mp he with he | he
      · rw [he]
        intro heq
        apply (List.nodup_cons.mp hnd).1
        have heq2 : f.local_path = p := heq
        rw [heq2]
        exact hp
      · exact hfresh p (List.mem_cons_of_mem _ hp) e he
    have hstep : writeFiles d (f :: fs) = writeFiles ((f.local_path, f.file_size) :: d) fs := by
      show writeFiles (diskWrite d f.local_path f.file_size) fs = _
      rw [hw]
    rw [hstep, ih ((f.local_path, f.file_size) :: d) hfresh2 (List.nodup_cons.mp hnd).2]
    simp [pairsOf]

theorem removePaths_eq_filter :
    ∀ (files : List DFile) (d : Disk),
      removePaths d files = d.filter (fun e => decide (e.1 ∉ pathsOfFiles files)) := by
  intro files
  induction files with
  | nil =>
    intro d
    show d = _
    rw [List.filter_eq_self.mpr]
    intro e _
    simp [pathsOfFiles]
  | cons f fs ih =>
    intro d
    show removePaths (diskRemove d f.local_path) fs = _
    unfold diskRemove
    rw [ih, List.filter_filter]
    apply List.filter_congr
    intro e _
    have hp : pathsOfFiles (f :: fs) = f.local_path :: pathsOfFiles fs := rfl
    rw [hp]
    by_cases h1 : e.1 = f.local_path <;> by_cases h2 : e.1 ∈ pathsOfFiles fs <;>
      simp [h1, h2]

theorem tmpUsage_pairs_reverse (files : List DFile) :
    tmpUsage ((pairsOf files).reverse) = totalSize files := by
  unfold tmpUsage
  rw [List.map_reverse, List.sum_reverse]
  unfold pairsOf totalSize
  rw [List.map_map]
  rfl

theorem flush_disk_eq (all files : List DFile) (zp : String) (zs : Nat)
    (hdisj : ∀ p ∈ pathsOfFiles files, p ∉ pathsOfFiles all)
    (hzf : zp ∉ pathsOfFiles files)
    (hza : zp ∉ pathsOfFiles all) :
    diskRemove
        (removePaths ((zp, zs) :: ((pairsOf files).reverse ++ (pairsOf all).reverse)) all)
        zp
      = (pairsOf files).reverse := by
  rw [removePaths_eq_filter]
  rw [List.filter_cons]
  have hza2 : (decide ((zp, zs).1 ∉ pathsOfFiles all)) = true := by simpa using hza
  rw [if_pos hza2, List.filter_append]
  have hfA : ((pairsOf files).reverse).filter (fun e => decide (e.1 ∉ pathsOfFiles all)) =
      (pairsOf files).reverse := by
    apply List.filter_eq_self.mpr
    intro e he
    simpa using hdisj e.1 (mem_pairsOf_reverse he)
  have hfB : ((pairsOf all).reverse).filter (fun e => decide (e.1 ∉ pathsOfFiles all)) = [] := by
    rw [List.filter_eq_nil_iff]
    intro e he
    simpa using mem_pairsOf_reverse he
  rw [hfA, hfB, List.append_nil]
  unfold diskRemove
  rw [List.filter_cons]
  have : (decide ((zp, zs).1 ≠ zp)) = false := by simp
  rw [if_neg (by simp [this]), List.filter_eq_self.mpr]
  intro e he
  have := mem_pairsOf_reverse he
  simp only [decide_eq_true_eq]
  intro hc
  exact hzf (hc ▸ this)

structure BudgetInv (st : JobState) (M : Nat) : Prop where
  hdisk : st.disk = (pairsOf st.all_files).reverse
  hupl : st.uploads = []
  hzero : st.all_files = [] → st.usage = 0
  husage : st.usage ≤ max lambdaStorageLimit (2 * M)

theorem step_budgetInv (folder pwd : String) (M : Nat) (st : JobState) (o : Option (List DFile))
    (hinv : BudgetInv st M)
    (hM : totalSize (o.getD []) ≤ M)
    (hfresh : ∀ p ∈ pathsOfFiles (o.getD []), p ∉ pathsOfFiles st.all_files)
    (hndS : (pathsOfFiles (o.getD [])).Nodup)
    (hzipS : ∀ p ∈ pathsOfFiles (o.getD []), ∀ n, p ≠ partZipPath folder n)
    (hzipA : ∀ p ∈ pathsOfFiles st.all_files, ∀ n, p ≠ partZipPath folder n) :
    BudgetInv (processServerStep folder pwd st o) M ∧
      List.Sublist (pathsOfFiles (processServerStep folder pwd st o).all_files)
        (pathsOfFiles st.all_files ++ pathsOfFiles (o.getD [])) := by
  cases o with
  | none =>
    refine ⟨hinv, ?_⟩
    show List.Sublist (pathsOfFiles st.all_files) (pathsOfFiles st.all_files ++ pathsOfFiles [])
    exact List.sublist_append_left _ _
  | some files =>
    simp only [Option.getD] at hM hfresh hndS hzipS
    have hw : writeFiles st.disk files =
        (pairsOf files).reverse ++ (pairsOf st.all_files).reverse := by
      rw [hinv.hdisk]
      apply writeFiles_fresh files _ _ hndS
      intro p hp e he
      intro hc
      exact hfresh p hp (hc ▸ mem_pairsOf_reverse he)
    simp only [processServerStep, takeUpload, hinv.hupl]
    split
    · -- flush: part zip written, uploaded, batch and zip removed, counter reset
      set zp := partZipPath folder st.part_number with hzp
      have hzpS : zp ∉ pathsOfFiles files := fun hmem => (hzipS _ hmem st.part_number) rfl
      have hzpA : zp ∉ pathsOfFiles st.all_files := fun hmem => (hzipA _ hmem st.part_number) rfl
      have hdw : diskWrite (writeFiles st.disk files) zp (totalSize st.all_files) =
          (zp, totalSize st.all_files) ::
            ((pairsOf files).reverse ++ (pairsOf st.all_files).reverse) := by
        rw [hw]
        unfold diskWrite
        congr 1
        apply List.filter_eq_self.mpr
        intro e he
        simp only [decide_eq_true_eq]
        intro hc
        rcases List.mem_append.mp he with he | he
        · exact hzpS (hc ▸ mem_pairsOf_reverse he)
        · exact hzpA (hc ▸ mem_pairsOf_reverse he)
      have hdisk4 : diskRemove
          (removePaths (diskWrite (writeFiles st.disk files) zp (totalSize st.all_files))
            st.all_files) zp = (pairsOf files).reverse := by
        rw [hdw]
        exact flush_disk_eq st.all_files files zp (totalSize st.all_files)
          (fun p hp => hfresh p hp) hzpS hzpA
      refine ⟨⟨?_, rfl, ?_, ?_⟩, ?_⟩
      · show diskRemove
            (removePaths (diskWrite (writeFiles st.disk files) zp (totalSize st.all_files))
              st.all_files) zp = (pairsOf files).reverse
        exact hdisk4
      · intro hnil
        have hnil2 : files = [] := hnil
        show tmpUsage (diskRemove
            (removePaths (diskWrite (writeFiles st.disk files) zp (totalSize st.all_files))
              st.all_files) zp) + totalSize files = 0
        rw [hdisk4, tmpUsage_pairs_reverse, hnil2]
        rfl
      · show tmpUsage (diskRemove
            (removePaths (diskWrite (writeFiles st.disk files) zp (totalSize st.all_files))
              st.all_files) zp) + totalSize files ≤ max lambdaStorageLimit (2 * M)
        rw [hdisk4, tmpUsage_pairs_reverse]
        have h2 : totalSize files + totalSize files ≤ 2 * M := by omega
        exact le_trans h2 (le_max_right _ _)
      · show List.Sublist (pathsOfFiles files)
            (pathsOfFiles st.all_files ++ pathsOfFiles files)
        exact List.sublist_append_right _ _
    · -- no flush: the files only join the batch
      rename_i hcond
      refine ⟨⟨?_, rfl, ?_, ?_⟩, ?_⟩
      · show writeFiles st.disk files = (pairsOf (st.all_files ++ files)).reverse
        rw [hw, pairsOf_append, List.reverse_append]
      · intro hnil
        have hnil2 : st.all_files ++ files = [] := hnil
        rcases List.append_eq_nil.mp hnil2 with ⟨h1, h2⟩
        show st.usage + totalSize files = 0
        rw [hinv.hzero h1, h2]
        rfl
      · show st.usage + totalSize files ≤ max lambdaStorageLimit (2 * M)
        rw [Bool.and_eq_true, not_and_or] at hcond
        rcases hcond with hcond | hcond
        · have hle : st.usage + totalSize files ≤ lambdaStorageLimit := by
            simpa using hcond
          exact le_trans hle (le_max_left _ _)
        · have hnil : st.all_files = [] := by
            simpa using hcond
          rw [hinv.hzero hnil]
          exact le_trans (by omega) (le_max_right lambdaStorageLimit (2 * M))
      · show List.Sublist (pathsOfFiles (st.all_files ++ files))
            (pathsOfFiles st.all_files ++ pathsOfFiles files)
        rw [pathsOfFiles_append]

def outcomePaths (outcomes : List (Option (List DFile))) : List String :=
  outcomes.flatMap (fun o => pathsOfFiles (o.getD []))

theorem fold_budgetInv (folder pwd : String) (M : Nat) :
    ∀ (outcomes : List (Option (List DFile))) (st : JobState),
      BudgetInv st M →
      (pathsOfFiles st.all_files ++ outcomePaths outcomes).Nodup →
      (∀ p ∈ pathsOfFiles st.all_files ++ outcomePaths outcomes, ∀ n, p ≠ partZipPath folder n) →
      (∀ o ∈ outcomes, totalSize (o.getD []) ≤ M) →
      BudgetInv (outcomes.foldl (processServerStep folder pwd) st) M := by
  intro outcomes
  induction outcomes with
  | nil => intro st hinv _ _ _; exact hinv
  | cons o os ih =>
    intro st hinv hnd hzip hM
    have hsplit : outcomePaths (o :: os) = pathsOfFiles (o.getD []) ++ outcomePaths os := by
      simp [outcomePaths]
    rw [hsplit] at hnd hzip
    have hnd2 : ((pathsOfFiles st.all_files ++ pathsOfFiles (o.getD [])) ++ outcomePaths os).Nodup := by
      rw [List.append_assoc]
      exact hnd
    have hndAO : (pathsOfFiles st.all_files ++ pathsOfFiles (o.getD [])).Nodup :=
      (List.nodup_append.mp hnd2).1
    have hfresh : ∀ p ∈ pathsOfFiles (o.getD []), p ∉ pathsOfFiles st.all_files := by
      intro p hp hpa
      exact (List.nodup_append.mp hndAO).2.2 hpa hp
    have hndS : (pathsOfFiles (o.getD [])).Nodup := (List.nodup_append.mp hndAO).2.1
    have hzipS : ∀ p ∈ pathsOfFiles (o.getD []), ∀ n, p ≠ partZipPath folder n := by
      intro p hp
      exact hzip p (List.mem_append_right _ (List.mem_append_left _ hp))
    have hzipA : ∀ p ∈ pathsOfFiles st.all_files, ∀ n, p ≠ partZipPath folder n := by
      intro p hp
      exact hzip p (List.mem_append_left _ hp)
    have hstep := step_budgetInv folder pwd M st o hinv (hM o (List.mem_cons_self _ _))
      hfresh hndS hzipS hzipA
    rw [List.foldl_cons]
    apply ih (processServerStep folder pwd st o) hstep.1
    · -- the new batch paths plus the remaining servers' paths stay Nodup
      apply List.Nodup.sublist _ hnd2
      exact hstep.2.append_right (outcomePaths os)
    · intro p hp
      rcases List.mem_append.mp hp with hp | hp
      · have := hstep.2.subset hp
        rcases List.mem_append.mp this with hp2 | hp2
        · exact hzipA p hp2
        · exact hzipS p hp2
      · exact hzip p (List.mem_append_right _ (List.mem_append_right _ hp))
    · intro o2 ho2
      exact hM o2 (List.mem_cons_of_mem _ ho2)

/-- Claim C3 (amended): when the local temp paths of all downloaded
files are pairwise distinct and never collide with a part-zip path, and
every upload succeeds, then after any number of loop iterations the
running storage counter is at most `max(8 GiB, 2 × M)` where `M` bounds
every single server's downloaded total — i.e. the counter can overshoot
the ceiling by up to twice one server's whole download (its bytes are
double-counted by the post-flush reset, which re-scans `/tmp` while the
triggering server's files are still there), not by just that server's
largest single file (see the counterexample). -/
theorem C3_budget_bound (folder pwd : String) (outcomes : List (Option (List DFile))) (M : Nat)
    (hnodup : (outcomePaths outcomes).Nodup)
    (hzip : ∀ p ∈ outcomePaths outcomes, ∀ n, p ≠ partZipPath folder n)
    (hM : ∀ o ∈ outcomes, totalSize (o.getD []) ≤ M) :
    ∀ k, (runStateAt folder pwd outcomes k).usage ≤ max lambdaStorageLimit (2 * M) := by
  intro k
  have hsplit : outcomePaths (outcomes.take k) ++ outcomePaths (outcomes.drop k) =
      outcomePaths outcomes := by
    unfold outcomePaths
    rw [← List.flatMap_append, List.take_append_drop]
  have hinit : BudgetInv (initialState [] []) M :=
    ⟨rfl, rfl, fun _ => rfl, Nat.zero_le _⟩
  rw [← hsplit] at hnodup
  have hnd : (pathsOfFiles (initialState [] []).all_files ++ outcomePaths (outcomes.take k)).Nodup := by
    show ([] ++ outcomePaths (outcomes.take k)).Nodup
    rw [List.nil_append]
    exact (List.nodup_append.mp hnodup).1
  have hz : ∀ p ∈ pathsOfFiles (initialState [] []).all_files ++ outcomePaths (outcomes.take k),
      ∀ n, p ≠ partZipPath folder n := by
    intro p hp
    have hp2 : p ∈ outcomePaths (outcomes.take k) := by
      have hinitp : pathsOfFiles (initialState [] []).all_files = [] := rfl
      rwa [hinitp, List.nil_append] at hp
    apply hzip p
    rw [← hsplit]
    exact List.mem_append_left _ hp2
  have hM2 : ∀ o ∈ outcomes.take k, totalSize (o.getD []) ≤ M :=
    fun o ho => hM o (List.mem_of_mem_take ho)
  exact (fold_budgetInv folder pwd M (outcomes.take k) (initialState [] []) hinit hnd hz hM2).husage

theorem partZipPath_head (folder : String) (n : Nat) :
    (partZipPath folder n).data.head? = some '/' := by
  unfold partZipPath
  rw [String.data_append, String.data_append, String.data_append, String.data_append]
  rfl

theorem ne_partZipPath_of_head (s folder : String)
    (h : s.data.head? ≠ some '/') (n : Nat) : s ≠ partZipPath folder n := by
  intro he
  exact h (he ▸ partZipPath_head folder n)

theorem C3_budget_bound_witness :
    (runStateAt "job" "pw" [some [⟨"a.log", 3⟩]] 1).usage ≤ max lambdaStorageLimit (2 * 3) :=
  C3_budget_bound "job" "pw" [some [⟨"a.log", 3⟩]] 3 (by decide)
    (fun p hp n => by
      have hp2 : p = "a.log" := by
        simpa [outcomePaths, pathsOfFiles] using hp
      rw [hp2]
      exact ne_partZipPath_of_head "a.log" "job" (by decide) n)
    (by intro o ho; simp at ho; rw [ho]; decide) 1
